import Mathlib

/-!
# Verification of the weather-sounding inversion engine

Shallow embedding of `src/weather_tool/processor.py`:

* `extractPairs`      — the header/table pairing of `extract_soundings_from_html`;
* `processSounding`   — the parse / numeric-coercion / segmentation / filter
  pipeline of `process_sounding`;
* `scanFrom` / `extendRun` / `inversionSegments` — the inversion-detection scan
  (lines 89–135 of `processor.py`);
* `eventRows` / `heightFilter` — the 1000 m row filter and de-duplication
  (lines 137–143);
* `stepSounding` / `processData` — the processed/failed counting loop of
  `process_data` (lines 148–234);
* `gridStamps` and the category subsets — `create_combined_file`
  (lines 237–281).

Numeric values in the source are pandas floats where a missing field is NaN,
and every comparison with NaN is false; we model a value as `Option ℚ`
(`none` = NaN) and give the NaN-aware comparison operators explicitly.
-/

attribute [local semireducible] Rat.ofScientific Rat.mul Rat.inv Rat.add Rat.sub

namespace WeatherTool

/-- NaN-aware `>` as pandas evaluates it: false whenever either side is NaN. -/
def fGt : Option ℚ → Option ℚ → Bool
  | some a, some b => decide (b < a)
  | _, _ => false

/-- NaN-aware `≥`: false whenever either side is NaN. -/
def fGe : Option ℚ → Option ℚ → Bool
  | some a, some b => decide (b ≤ a)
  | _, _ => false

/-- NaN-aware `≤`: false whenever either side is NaN. -/
def fLe : Option ℚ → Option ℚ → Bool
  | some a, some b => decide (a ≤ b)
  | _, _ => false

/-- NaN-aware `==` against a constant: false for NaN. -/
def fEq : Option ℚ → ℚ → Bool
  | some a, v => decide (a = v)
  | none, _ => false

/-- Subtraction with NaN propagation. -/
def fSub : Option ℚ → Option ℚ → Option ℚ
  | some a, some b => some (a - b)
  | _, _ => none

/-- One data level of a profile: the three numeric columns the engine reads
(`HGHT`, `TEMP`, `SKNT` after conversion). A `none` field is a NaN cell. -/
structure Level where
  hght : Option ℚ
  temp : Option ℚ
  sknt : Option ℚ
  deriving DecidableEq, Repr

instance : Inhabited Level := ⟨⟨none, none, none⟩⟩

/-- `TEMP` of row `k` (`df["TEMP"].iloc[k]`). -/
def tempAt (levels : List Level) (k : ℕ) : Option ℚ :=
  (levels.getD k default).temp

/-- `HGHT` of row `k` (`df["HGHT"].iloc[k]`). -/
def hghtAt (levels : List Level) (k : ℕ) : Option ℚ :=
  (levels.getD k default).hght

/-- The inner `while` of the segmenter (line 100):
`while j < len(df) - 1 and df["TEMP"].iloc[j+1] >= df["TEMP"].iloc[j]: j += 1`.
The loop advances `j` by one each iteration and can run at most
`len(df) - 1 - j` times, so any fuel of at least `levels.length` is exact. -/
def extendRun (levels : List Level) : ℕ → ℕ → ℕ
  | 0, j => j
  | fuel + 1, j =>
    if j + 1 < levels.length ∧ fGe (tempAt levels (j + 1)) (tempAt levels j) = true then
      extendRun levels fuel (j + 1)
    else j

/-- The outer `while i < len(df) - 1` scan of the segmenter (lines 93–135).
At row `i` a run starts iff `df["TEMP"].iloc[i+1] > df["TEMP"].iloc[i]`
(line 95, strict); the run is recorded as the index pair
`(inversion_start, inversion_end)` and the scan resumes at
`inversion_end + 1` (line 133 `i = inversion_end` followed by `i += 1`).
`i` grows by at least one per iteration, so fuel `levels.length` is exact. -/
def scanFrom (levels : List Level) : ℕ → ℕ → List (ℕ × ℕ)
  | 0, _ => []
  | fuel + 1, i =>
    if i + 1 < levels.length then
      if fGt (tempAt levels (i + 1)) (tempAt levels i) = true then
        let j := extendRun levels levels.length (i + 1)
        (i, j) :: scanFrom levels fuel (j + 1)
      else
        scanFrom levels fuel (i + 1)
    else []

/-- All candidate runs produced by the forward scan started at row 0. -/
def runCandidates (levels : List Level) : List (ℕ × ℕ) :=
  scanFrom levels levels.length 0

/-- The candidate guards of lines 106 and 118:
`inversion_end > inversion_start`, `delta_h > 0`, `delta_t > 0`. -/
def keepSegment (levels : List Level) (s : ℕ × ℕ) : Bool :=
  decide (s.1 < s.2) &&
    fGt (fSub (hghtAt levels s.2) (hghtAt levels s.1)) (some 0) &&
    fGt (fSub (tempAt levels s.2) (tempAt levels s.1)) (some 0)

/-- The segments of a profile that survive the ΔH/ΔT guards, as index pairs. -/
def inversionSegments (levels : List Level) : List (ℕ × ℕ) :=
  (runCandidates levels).filter (keepSegment levels)

/-! ## Profile parsing and numeric coercion (`process_sounding`, lines 67–87) -/

/-- One raw 7-character field after trimming: empty (→ NaN), a numeral,
or text that `astype(float)` cannot coerce (→ `ValueError`). -/
inductive Cell
  | missing
  | num (q : ℚ)
  | bad
  deriving DecidableEq, Repr

/-- `astype(float)` on one field: `""` was replaced by NaN, a numeral parses,
anything else raises. -/
def coerceCell : Cell → Option (Option ℚ)
  | .missing => some none
  | .num q => some (some q)
  | .bad => none

/-- Coerce a whole row; the profile parse fails if any field fails. -/
def coerceRow (row : List Cell) : Option (List (Option ℚ)) :=
  row.mapM coerceCell

/-- `0.51444444444444`, the knots → m/s factor of line 85. -/
def knotsToMs : ℚ := 0.51444444444444

/-- `.round(2)`: round to 2 decimal places. -/
def round2 (x : ℚ) : ℚ := (round (x * 100) : ℤ) / 100

/-- Line 85: `df["SKNT"] = (df["SKNT"] * 0.51444444444444).round(2)`. -/
def convertWind (v : ℚ) : ℚ := round2 (v * knotsToMs)

/-- A coerced data row, keeping the columns the engine reads by their fixed
positions in the `PRES HGHT TEMP DWPT RELH MIXR DRCT SKNT THTA THTE THTV`
layout: `HGHT` is field 1, `TEMP` field 2, `SKNT` field 7; the wind column is
converted to m/s immediately after coercion. -/
def rowToLevel (r : List (Option ℚ)) : Level :=
  { hght := r.getD 1 none
    temp := r.getD 2 none
    sknt := (r.getD 7 none).map convertWind }

/-! ## Event rows, the 1000 m filter and de-duplication (lines 106–143) -/

/-- One row of `df_inverse`: a level of a segment together with the per-segment
metadata columns attached at lines 119–128 (`date` is carried as the synoptic
hour, the only part of it the tags read). -/
structure EventRow where
  lvl : Level
  dT : Option ℚ
  dH : Option ℚ
  hl : Option ℚ
  tl : Option ℚ
  ground : ℕ
  night : ℕ
  day : ℕ
  deriving DecidableEq, Repr

/-- `df.iloc[inversion_start : inversion_end + 1]` (line 107). -/
def segmentRows (levels : List Level) (s : ℕ × ℕ) : List Level :=
  (levels.drop s.1).take (s.2 + 1 - s.1)

/-- The event rows of one kept segment, with the metadata of lines 110–128. -/
def segmentEventRows (hour : ℕ) (levels : List Level) (s : ℕ × ℕ) : List EventRow :=
  (segmentRows levels s).map fun l =>
    { lvl := l
      dT := fSub (tempAt levels s.2) (tempAt levels s.1)
      dH := fSub (hghtAt levels s.2) (hghtAt levels s.1)
      hl := hghtAt levels s.1
      tl := tempAt levels s.1
      ground := if fLe (hghtAt levels s.1) (some 100) = true then 1 else 0
      night := if hour = 0 then 1 else 0
      day := if hour = 12 then 1 else 0 }

/-- Line 141: `df_inverse[df_inverse["HGHT"] <= 1000]` — a per-row filter
(a NaN height row is dropped, since `NaN <= 1000` is false). -/
def heightFilter (rows : List EventRow) : List EventRow :=
  rows.filter fun e => fLe e.lvl.hght (some 1000)

/-- Lines 137–143: concatenate all kept segments' rows, filter rows to
`HGHT <= 1000`, drop duplicate rows. -/
def eventRows (hour : ℕ) (levels : List Level) : List EventRow :=
  (heightFilter ((inversionSegments levels).flatMap (segmentEventRows hour levels))).dedup

/-- `process_sounding` (lines 64–145): the raw text is already split into its
retained rows (frame lines and `--` rules removed, each line cut into trimmed
7-character fields). Returns `none` for the two `return None, None` exits
(fewer than 2 retained rows, line 74, or a coercion failure, line 86), else
the parsed data levels (`df[2:]`) paired with the inversion event table. -/
def processSounding (hour : ℕ) (results : List (List Cell)) :
    Option (List Level × List EventRow) :=
  if results.length < 2 then none
  else
    match (results.drop 2).mapM coerceRow with
    | none => none
    | some dataRows =>
      let levels := dataRows.map rowToLevel
      some (levels, eventRows hour levels)

/-! ## The processed/failed counting loop of `process_data` (lines 148–234) -/

/-- The summary counters of line 155 (the file list is out of scope). -/
structure Summary where
  processed : ℕ
  failed : ℕ
  deriving DecidableEq, Repr

/-- One extracted sounding handed to `process_sounding`: its synoptic hour and
its parsed raw rows. -/
abbrev Sounding := ℕ × List (List Cell)

/-- Lines 191–228: one sounding increments `processed` when its inversion
table exists and is non-empty, `failed` otherwise. -/
def stepSounding (s : Summary) (snd : Sounding) : Summary :=
  match processSounding snd.1 snd.2 with
  | some (_, inv) =>
    if inv.isEmpty then { s with failed := s.failed + 1 }
    else { s with processed := s.processed + 1 }
  | none => { s with failed := s.failed + 1 }

/-- The month loop of `process_data`, abstracted over the soundings extracted
from each month for which text was obtained. -/
def processData (months : List (List Sounding)) : Summary :=
  months.foldl (fun s month => month.foldl stepSounding s) ⟨0, 0⟩

/-! ## Report Splitter pairing (`extract_soundings_from_html`, lines 22–44) -/

/-- `pre_tags[::2]`: every other element, starting at the first. -/
def everyOther {β : Type} : List β → List β
  | [] => []
  | [x] => [x]
  | x :: _ :: rest => x :: everyOther rest

/-- Lines 26–44: zero headers or zero tables → `[]`; twice as many tables as
headers → keep every other table; any other mismatch → `[]`; then `zip`. -/
def extractPairs {α β : Type} (h2s : List α) (pres : List β) : List (α × β) :=
  if h2s.length = 0 ∨ pres.length = 0 then []
  else if pres.length = 2 * h2s.length then h2s.zip (everyOther pres)
  else if h2s.length ≠ pres.length then []
  else h2s.zip pres

/-! ## The Period Aggregator grid (`create_combined_file`, lines 243–253) -/

/-- Gregorian leap year, as `calendar.isleap`. -/
def isLeap (y : ℕ) : Bool := (y % 4 == 0 && y % 100 != 0) || y % 400 == 0

/-- `calendar.monthrange(year, month)[1]`: the true number of days of the
month, leap-year aware. -/
def daysInMonth (y m : ℕ) : ℕ :=
  if m = 2 then (if isLeap y then 29 else 28)
  else if m = 4 ∨ m = 6 ∨ m = 9 ∨ m = 11 then 30
  else 31

/-- Days of year `y` that precede month `m` (months are 1-indexed). -/
def daysBefore (y m : ℕ) : ℕ :=
  ((List.range (m - 1)).map fun k => daysInMonth y (k + 1)).sum

/-- The synthetic grid of lines 243–250, in half-day units counted from
Jan 1 00:00 of the year: `pd.date_range(start, end, freq="12H")` emits every
stamp `start + k·12h` that is `≤ end`, where `start` is 00:00 of day 1 of the
first month and `end` is 00:00 (midnight) of the last day of the last month. -/
def gridStamps (y m1 m2 : ℕ) : List ℕ :=
  let start := 2 * daysBefore y m1
  let stop := 2 * (daysBefore y m2 + daysInMonth y m2 - 1)
  (List.range (stop + 1 - start)).map fun k => start + k

/-! ## The Period Aggregator category subsets (lines 255–274) -/

/-- One row of `data_full` after the left-join of line 253: the tag columns
are floats, NaN (`none`) on unmatched grid slots. -/
structure GridRow where
  date : ℕ
  ground : Option ℚ
  night : Option ℚ
  day : Option ℚ
  deriving DecidableEq, Repr

/-- `data_full[data_full["Ground"] == 1]`. -/
def dfGround (rows : List GridRow) : List GridRow :=
  rows.filter fun r => fEq r.ground 1

/-- `data_full[data_full["Ground"] == 0]`. -/
def dfNotGround (rows : List GridRow) : List GridRow :=
  rows.filter fun r => fEq r.ground 0

/-- `data_full[data_full["Day"] == 1]`. -/
def dfDay (rows : List GridRow) : List GridRow :=
  rows.filter fun r => fEq r.day 1

/-- `data_full[data_full["Night"] == 1]`. -/
def dfNight (rows : List GridRow) : List GridRow :=
  rows.filter fun r => fEq r.night 1

/-- `data_full[(data_full["Ground"] == 1) & (data_full["Night"] == 1)]`. -/
def dfGroundNight (rows : List GridRow) : List GridRow :=
  rows.filter fun r => fEq r.ground 1 && fEq r.night 1

/-- `data_full[(data_full["Ground"] == 1) & (data_full["Day"] == 1)]`. -/
def dfGroundDay (rows : List GridRow) : List GridRow :=
  rows.filter fun r => fEq r.ground 1 && fEq r.day 1

/-- `data_full[(data_full["Ground"] == 0) & (data_full["Night"] == 1)]`. -/
def dfNotGroundNight (rows : List GridRow) : List GridRow :=
  rows.filter fun r => fEq r.ground 0 && fEq r.night 1

/-- `data_full[(data_full["Ground"] == 0) & (data_full["Day"] == 1)]`. -/
def dfNotGroundDay (rows : List GridRow) : List GridRow :=
  rows.filter fun r => fEq r.ground 0 && fEq r.day 1

/-! ## Concrete profiles used by counterexamples and witnesses -/

/-- Two adjacent levels with equal temperatures (an isothermal step). -/
def profileEqualTemps : List Level := [⟨some 0, some 5, none⟩, ⟨some 100, some 5, none⟩]

/-- A profile whose temperature rises, holds, then falls. -/
def profileRising : List Level :=
  [⟨some 0, some 0, none⟩, ⟨some 50, some 1, none⟩,
   ⟨some 120, some 1, none⟩, ⟨some 200, some 0, none⟩]

/-- A profile with strictly increasing heights and temperatures. -/
def profileStrict : List Level :=
  [⟨some 10, some 1, none⟩, ⟨some 20, some 2, none⟩, ⟨some 30, some 3, none⟩]

/-- An inversion whose base (900 m) is below 1000 m but whose top (1100 m)
is above it. -/
def profileTallInversion : List Level :=
  [⟨some 900, some 0, none⟩, ⟨some 1100, some 5, none⟩]

/-- A 3-row block: column-name row, units row, and a single numeric data row
(fewer than 2 data rows). -/
def threeRowBlock : List (List Cell) :=
  [[Cell.bad], [Cell.bad], [Cell.num 1000, Cell.num 900, Cell.num 5]]

/-- Two header tags, by position. -/
def twoHeads : List ℕ := [1, 2]

/-- Four table blocks, by position. -/
def fourTables : List ℕ := [10, 11, 12, 13]

/-- An unmatched grid slot: all tag columns are NaN after the left join. -/
def nullTagRow : GridRow := ⟨7, none, none, none⟩

/-- A small joined table with one matched and one unmatched row. -/
def sampleGrid : List GridRow := [⟨0, some 1, some 1, some 0⟩, nullTagRow]

/-- A coerced data row whose wind-speed field (position 7) is 10 knots. -/
def windRow : List (Option ℚ) :=
  [none, none, none, none, none, none, none, some 10]

/-! ## Lemmas about the NaN-aware comparisons -/

theorem fGt_imp_fGe {a b : Option ℚ} (h : fGt a b = true) : fGe a b = true := by
  cases a <;> cases b <;> simp_all [fGt, fGe] <;> linarith

theorem fGt_trans {a b c : Option ℚ} (h1 : fGt a b = true) (h2 : fGt b c = true) :
    fGt a c = true := by
  cases a <;> cases b <;> cases c <;> simp_all [fGt] <;> linarith

theorem fGt_fSub_pos {a b : Option ℚ} (h : fGt a b = true) :
    fGt (fSub a b) (some 0) = true := by
  cases a <;> cases b <;> simp_all [fGt, fSub] <;> linarith

/-! ## Lemmas about the inner run-extension loop -/

theorem extendRun_ge (levels : List Level) :
    ∀ fuel j, j ≤ extendRun levels fuel j
  | 0, j => Nat.le_refl j
  | fuel + 1, j => by
    unfold extendRun
    split
    · exact Nat.le_trans (Nat.le_succ j) (extendRun_ge levels fuel (j + 1))
    · exact Nat.le_refl j

theorem extendRun_steps (levels : List Level) :
    ∀ fuel j k, j ≤ k → k < extendRun levels fuel j →
      k + 1 < levels.length ∧ fGe (tempAt levels (k + 1)) (tempAt levels k) = true
  | 0, j, k, hjk, hk => absurd hk (by simp [extendRun]; omega)
  | fuel + 1, j, k, hjk, hk => by
    rw [extendRun] at hk
    split at hk
    · rename_i hc
      rcases Nat.eq_or_lt_of_le hjk with heq | hlt
      · exact heq ▸ hc
      · exact extendRun_steps levels fuel (j + 1) k hlt hk
    · omega

theorem extendRun_stop (levels : List Level) :
    ∀ fuel j, levels.length ≤ fuel + j + 1 →
      ¬(extendRun levels fuel j + 1 < levels.length ∧
        fGe (tempAt levels (extendRun levels fuel j + 1))
          (tempAt levels (extendRun levels fuel j)) = true)
  | 0, j, hf => by simp only [extendRun]; omega
  | fuel + 1, j, hf => by
    rw [extendRun]
    split
    · exact extendRun_stop levels fuel (j + 1) (by omega)
    · assumption

/-! ## Lemmas about the outer scan -/

theorem scanFrom_fst_ge (levels : List Level) :
    ∀ fuel i a b, (a, b) ∈ scanFrom levels fuel i → i ≤ a
  | 0, i, a, b, h => absurd h (by simp [scanFrom])
  | fuel + 1, i, a, b, h => by
    rw [scanFrom] at h
    split at h
    · split at h
      · rcases List.mem_cons.mp h with heq | hmem
        · cases heq; exact Nat.le_refl _
        · have h1 := scanFrom_fst_ge levels fuel _ a b hmem
          have h2 := extendRun_ge levels levels.length (i + 1)
          omega
      · exact Nat.le_trans (Nat.le_succ i) (scanFrom_fst_ge levels fuel _ a b h)
    · simp at h

theorem scanFrom_fst_lt_snd (levels : List Level) :
    ∀ fuel i a b, (a, b) ∈ scanFrom levels fuel i → a < b
  | 0, i, a, b, h => absurd h (by simp [scanFrom])
  | fuel + 1, i, a, b, h => by
    rw [scanFrom] at h
    split at h
    · split at h
      · rcases List.mem_cons.mp h with heq | hmem
        · cases heq
          have h3 := extendRun_ge levels levels.length (i + 1)
          omega
        · exact scanFrom_fst_lt_snd levels fuel _ a b hmem
      · exact scanFrom_fst_lt_snd levels fuel _ a b h
    · simp at h

theorem scanFrom_pairwise (levels : List Level) :
    ∀ fuel i, (scanFrom levels fuel i).Pairwise fun s t => s.2 < t.1
  | 0, i => by simp [scanFrom]
  | fuel + 1, i => by
    rw [scanFrom]
    split
    · split
      · refine List.pairwise_cons.mpr ⟨?_, scanFrom_pairwise levels fuel _⟩
        rintro ⟨a, b⟩ hmem
        have := scanFrom_fst_ge levels fuel _ a b hmem
        simpa using by omega
      · exact scanFrom_pairwise levels fuel _
    · exact List.Pairwise.nil

theorem scanFrom_pos (levels : List Level) (fuel i : ℕ) (h : i + 1 < levels.length)
    (hg : fGt (tempAt levels (i + 1)) (tempAt levels i) = true) :
    scanFrom levels (fuel + 1) i =
      (i, extendRun levels levels.length (i + 1)) ::
        scanFrom levels fuel (extendRun levels levels.length (i + 1) + 1) := by
  rw [scanFrom, if_pos h, if_pos hg]

theorem scanFrom_neg (levels : List Level) (fuel i : ℕ) (h : i + 1 < levels.length)
    (hg : fGt (tempAt levels (i + 1)) (tempAt levels i) = false) :
    scanFrom levels (fuel + 1) i = scanFrom levels fuel (i + 1) := by
  rw [scanFrom, if_pos h, if_neg (by simp [hg])]

/-! ## Claim C1 — start condition and extension of the forward scan -/

/-- C1 as stated is false: with two adjacent levels of equal temperature,
the temperature at level 1 is ≥ the temperature at level 0, yet the scan
starts no inversion run (line 95 of `processor.py` tests strict `>`). -/
theorem c1_no_run_on_equal_temps :
    fGe (tempAt profileEqualTemps 1) (tempAt profileEqualTemps 0) = true ∧
    scanFrom profileEqualTemps profileEqualTemps.length 0 = [] := by decide

/-- C1 (amended): the forward scan with its cursor at `i` starts an inversion
run at `i` exactly when the temperature at level `i+1` is **strictly greater
than** (not merely ≥) the temperature at level `i`; once a run starts at `i`,
it extends to `j = extendRun (i+1)`, every step up to `j` satisfies
temperature at `k+1` ≥ temperature at `k`, and the run cannot be extended
further (either `j+1` is out of bounds or the next step is not ≥). -/
theorem c1_scan_start_and_extension (levels : List Level) (i : ℕ)
    (h : i + 1 < levels.length) :
    ((∃ e, (i, e) ∈ scanFrom levels levels.length i) ↔
      fGt (tempAt levels (i + 1)) (tempAt levels i) = true) ∧
    (∀ k, k < extendRun levels levels.length (i + 1) → i + 1 ≤ k →
      fGe (tempAt levels (k + 1)) (tempAt levels k) = true) ∧
    ¬(extendRun levels levels.length (i + 1) + 1 < levels.length ∧
      fGe (tempAt levels (extendRun levels levels.length (i + 1) + 1))
        (tempAt levels (extendRun levels levels.length (i + 1))) = true) := by
  refine ⟨?_, ?_, ?_⟩
  · obtain ⟨m, hm⟩ : ∃ m, levels.length = m + 1 := ⟨levels.length - 1, by omega⟩
    constructor
    · rintro ⟨e, he⟩
      by_contra hg
      have hg' : fGt (tempAt levels (i + 1)) (tempAt levels i) = false := by
        simpa using hg
      rw [hm, scanFrom_neg levels m i h hg'] at he
      have := scanFrom_fst_ge levels m (i + 1) i e he
      omega
    · intro hg
      have hp := scanFrom_pos levels m i h hg
      rw [hm] at hp ⊢
      exact ⟨extendRun levels (m + 1) (i + 1), hp ▸ List.mem_cons_self _ _⟩
  · intro k hk hik
    exact (extendRun_steps levels levels.length (i + 1) k hik hk).2
  · exact extendRun_stop levels levels.length (i + 1) (by omega)

/-- Witness for C1 at a concrete profile: its run starting at 0 extends
through the isothermal step from level 1 to level 2. -/
theorem c1_scan_start_and_extension_witness :
    fGe (tempAt profileRising 2) (tempAt profileRising 1) = true :=
  (c1_scan_start_and_extension profileRising 0 (by decide)).2.1 1 (by decide) (by decide)

/-! ## Claim C9 — segments are disjoint with strictly increasing bases -/

/-- C9: every segment satisfies `start < end`; in scan order the segments are
pairwise disjoint (no level index lies in two of them) and their base indices
are strictly increasing, because the scan resumes at one past the previous
run's end. -/
theorem c9_segments_disjoint_and_ordered (levels : List Level) :
    (∀ s ∈ inversionSegments levels, s.1 < s.2) ∧
    (inversionSegments levels).Pairwise fun s t =>
      s.1 < t.1 ∧ ∀ k, ¬(s.1 ≤ k ∧ k ≤ s.2 ∧ t.1 ≤ k ∧ k ≤ t.2) := by
  have hmem : ∀ s ∈ inversionSegments levels, s.1 < s.2 := by
    rintro ⟨a, b⟩ hs
    have hc := (List.mem_filter.mp hs).1
    exact scanFrom_fst_lt_snd levels levels.length 0 a b hc
  refine ⟨hmem, ?_⟩
  have hp : (inversionSegments levels).Pairwise fun s t => s.2 < t.1 :=
    (scanFrom_pairwise levels levels.length 0).filter (keepSegment levels)
  refine hp.imp_of_mem ?_
  intro s t hs ht hst
  have h1 := hmem s hs
  exact ⟨by omega, fun k => by omega⟩

/-! ## Claim C4 — a strictly increasing profile yields one full-span segment -/

theorem scanFrom_stop (levels : List Level) (fuel i : ℕ) (h : levels.length ≤ i + 1) :
    scanFrom levels fuel i = [] := by
  cases fuel with
  | zero => rw [scanFrom]
  | succ f => rw [scanFrom, if_neg (by omega)]

theorem extendRun_all (levels : List Level)
    (ht : ∀ k, k < levels.length - 1 →
      fGe (tempAt levels (k + 1)) (tempAt levels k) = true) :
    ∀ fuel j, j < levels.length → levels.length ≤ fuel + j + 1 →
      extendRun levels fuel j = levels.length - 1
  | 0, j, hj, hf => by rw [extendRun]; omega
  | fuel + 1, j, hj, hf => by
    rw [extendRun]
    by_cases hjl : j + 1 < levels.length
    · rw [if_pos ⟨hjl, ht j (by omega)⟩]
      exact extendRun_all levels ht fuel (j + 1) hjl (by omega)
    · rw [if_neg (by tauto)]
      omega

theorem fGt_chain (f : ℕ → Option ℚ) (n : ℕ)
    (hf : ∀ k, k < n - 1 → fGt (f (k + 1)) (f k) = true) :
    ∀ b, b < n → ∀ a, a < b → fGt (f b) (f a) = true := by
  intro b
  induction b with
  | zero => omega
  | succ b ih =>
    intro hb a ha
    rcases Nat.lt_succ_iff_lt_or_eq.mp ha with h | h
    · exact fGt_trans (hf b (by omega)) (ih (by omega) a h)
    · subst h; exact hf a (by omega)

/-- C4: a valid profile with `N ≥ 2` data rows, strictly increasing
temperature at every consecutive step and strictly increasing heights yields
exactly one segment, spanning rows `0` through `N − 1`. -/
theorem c4_strictly_increasing_one_segment (levels : List Level)
    (hn : 2 ≤ levels.length)
    (ht : ∀ k, k < levels.length - 1 →
      fGt (tempAt levels (k + 1)) (tempAt levels k) = true)
    (hh : ∀ k, k < levels.length - 1 →
      fGt (hghtAt levels (k + 1)) (hghtAt levels k) = true) :
    inversionSegments levels = [(0, levels.length - 1)] := by
  obtain ⟨m, hm⟩ : ∃ m, levels.length = m + 2 := ⟨levels.length - 2, by omega⟩
  have hge : ∀ k, k < levels.length - 1 →
      fGe (tempAt levels (k + 1)) (tempAt levels k) = true :=
    fun k hk => fGt_imp_fGe (ht k hk)
  have he : extendRun levels levels.length 1 = levels.length - 1 :=
    extendRun_all levels hge levels.length 1 (by omega) (by omega)
  have h0 : fGt (tempAt levels 1) (tempAt levels 0) = true := by
    have := ht 0 (by omega)
    simpa using this
  have hpos := scanFrom_pos levels (m + 1) 0 (by omega) (by simpa using h0)
  simp only [Nat.zero_add] at hpos
  rw [he] at hpos
  rw [scanFrom_stop levels (m + 1) (levels.length - 1 + 1) (by omega)] at hpos
  have hscan : scanFrom levels levels.length 0 = [(0, levels.length - 1)] := by
    rw [hm] at hpos ⊢
    exact hpos
  have hT : fGt (tempAt levels (levels.length - 1)) (tempAt levels 0) = true :=
    fGt_chain (tempAt levels) levels.length ht (levels.length - 1) (by omega) 0 (by omega)
  have hH : fGt (hghtAt levels (levels.length - 1)) (hghtAt levels 0) = true :=
    fGt_chain (hghtAt levels) levels.length hh (levels.length - 1) (by omega) 0 (by omega)
  have hk : keepSegment levels (0, levels.length - 1) = true := by
    simp only [keepSegment, Bool.and_eq_true, decide_eq_true_eq]
    exact ⟨⟨by omega, fGt_fSub_pos hH⟩, fGt_fSub_pos hT⟩
  unfold inversionSegments runCandidates
  rw [hscan]
  simp [List.filter, hk]

/-- Witness for C4: the three-level strictly increasing profile produces the
single segment `(0, 2)`. -/
theorem c4_strictly_increasing_one_segment_witness :
    inversionSegments profileStrict = [(0, profileStrict.length - 1)] :=
  c4_strictly_increasing_one_segment profileStrict (by decide) (by decide) (by decide)

/-! ## Claim C2 — the 1000 m filter acts on rows, not on whole segments -/

theorem mem_segmentRows (levels : List Level) (s : ℕ × ℕ) (hlen : s.2 < levels.length)
    (r : Level) :
    r ∈ segmentRows levels s ↔ ∃ k, s.1 ≤ k ∧ k ≤ s.2 ∧ levels.getD k default = r := by
  unfold segmentRows
  rw [List.mem_iff_getElem]
  constructor
  · rintro ⟨i, hi, hr⟩
    have hlt : i < s.2 + 1 - s.1 ∧ i < levels.length - s.1 := by
      simpa [Nat.lt_min] using hi
    refine ⟨s.1 + i, by omega, by omega, ?_⟩
    rw [List.getD_eq_getElem _ _ (by omega)]
    simpa using hr
  · rintro ⟨k, h1, h2, hr⟩
    refine ⟨k - s.1, by simp; omega, ?_⟩
    rw [List.getD_eq_getElem _ _ (by omega)] at hr
    simp only [List.getElem_take, List.getElem_drop]
    convert hr using 2
    omega

theorem fGe_chain_base (f : ℕ → Option ℚ) (b : ℚ) (a n : ℕ) (hfa : f a = some b)
    (hmono : ∀ k, k < n → a ≤ k → fGe (f (k + 1)) (f k) = true) :
    ∀ k, a ≤ k → k ≤ n → ∃ c, f k = some c ∧ b ≤ c := by
  intro k hak
  induction k, hak using Nat.le_induction with
  | base => exact fun _ => ⟨b, hfa, le_refl b⟩
  | succ k hk ih =>
    intro hkn
    obtain ⟨c, hc, hbc⟩ := ih (by omega)
    have hg := hmono k (by omega) hk
    rw [hc] at hg
    cases hfk : f (k + 1) with
    | none => rw [hfk] at hg; simp [fGe] at hg
    | some d =>
      rw [hfk] at hg
      simp only [fGe, decide_eq_true_eq] at hg
      exact ⟨d, rfl, le_trans hbc hg⟩

/-- C2 (amended): line 141's filter acts level by level, not on whole
segments. A candidate segment's rows vanish entirely from the event output
iff the segment's base height exceeds 1000 m (given the profile's
non-decreasing heights); a segment whose base is ≤ 1000 m survives, but keeps
exactly those of its levels whose height is ≤ 1000 m — not necessarily all of
them. -/
theorem c2_height_filter_per_row (hour : ℕ) (levels : List Level) (s : ℕ × ℕ)
    (hs : s.1 ≤ s.2) (hlen : s.2 < levels.length)
    (hbase : (hghtAt levels s.1).isSome = true)
    (hmono : ∀ k, k < s.2 → s.1 ≤ k →
      fGe (hghtAt levels (k + 1)) (hghtAt levels k) = true) :
    (heightFilter (segmentEventRows hour levels s) = [] ↔
      fGt (hghtAt levels s.1) (some 1000) = true) ∧
    (∀ e ∈ heightFilter (segmentEventRows hour levels s),
      e ∈ segmentEventRows hour levels s ∧ fLe e.lvl.hght (some 1000) = true) ∧
    (∀ e ∈ segmentEventRows hour levels s,
      fLe e.lvl.hght (some 1000) = true →
        e ∈ heightFilter (segmentEventRows hour levels s)) := by
  obtain ⟨b, hb⟩ := Option.isSome_iff_exists.mp hbase
  refine ⟨?_, ?_, ?_⟩
  · constructor
    · intro hnil
      by_contra hgt
      have hble : b ≤ 1000 := by
        rw [hb] at hgt
        simp only [fGt, decide_eq_true_eq] at hgt
        exact le_of_not_lt hgt
      have hl0 : levels.getD s.1 default ∈ segmentRows levels s :=
        (mem_segmentRows levels s hlen _).mpr ⟨s.1, le_refl _, hs, rfl⟩
      have he0 : ∃ e ∈ segmentEventRows hour levels s,
          e.lvl = levels.getD s.1 default := by
        refine ⟨_, List.mem_map_of_mem _ hl0, rfl⟩
      obtain ⟨e, he, helvl⟩ := he0
      have hkeep : fLe e.lvl.hght (some 1000) = true := by
        rw [helvl]
        show fLe (hghtAt levels s.1) (some 1000) = true
        rw [hb]
        simp [fLe, hble]
      have : e ∈ heightFilter (segmentEventRows hour levels s) :=
        List.mem_filter.mpr ⟨he, hkeep⟩
      rw [hnil] at this
      simp at this
    · intro hgt
      have hbgt : (1000 : ℚ) < b := by
        rw [hb] at hgt
        simpa [fGt] using hgt
      unfold heightFilter
      rw [List.filter_eq_nil_iff]
      rintro e he
      obtain ⟨l, hl, rfl⟩ := List.mem_map.mp he
      obtain ⟨k, hk1, hk2, hlk⟩ := (mem_segmentRows levels s hlen l).mp hl
      obtain ⟨c, hc, hbc⟩ := fGe_chain_base (hghtAt levels) b s.1 s.2 hb hmono k hk1 hk2
      have hlh : l.hght = some c := by rw [← hlk]; exact hc
      simp [hlh, fLe]
      linarith
  · intro e he
    exact ⟨(List.mem_filter.mp he).1, (List.mem_filter.mp he).2⟩
  · intro e he hle
    exact List.mem_filter.mpr ⟨he, hle⟩

/-- C2 as stated is false: the two-level inversion based at 900 m has base
height ≤ 1000 m, yet its 1100 m level is dropped by the filter — the retained
segment does not keep all of its levels. -/
theorem c2_retained_segment_loses_high_rows :
    inversionSegments profileTallInversion = [(0, 1)] ∧
    fLe (hghtAt profileTallInversion 0) (some 1000) = true ∧
    (segmentEventRows 0 profileTallInversion (0, 1)).length = 2 ∧
    (heightFilter (segmentEventRows 0 profileTallInversion (0, 1))).length = 1 := by
  decide

/-- Witness for C2 at the concrete two-level profile. -/
theorem c2_height_filter_per_row_witness :
    heightFilter (segmentEventRows 0 profileTallInversion (0, 1)) = [] ↔
      fGt (hghtAt profileTallInversion 0) (some 1000) = true :=
  (c2_height_filter_per_row 0 profileTallInversion (0, 1)
    (by decide) (by decide) (by decide) (by decide)).1

/-! ## Claim C6 — blocks with fewer than 2 data rows -/

theorem mapM_option_length {α β : Type} (f : α → Option β) :
    ∀ (l : List α) (l' : List β), l.mapM f = some l' → l'.length = l.length
  | [], l', h => by
    simp only [List.mapM_nil, pure, Option.some.injEq] at h
    simp [← h]
  | a :: l, l', h => by
    rw [List.mapM_cons] at h
    cases hfa : f a with
    | none => rw [hfa] at h; simp at h
    | some b =>
      rw [hfa] at h
      cases hml : l.mapM f with
      | none => rw [hml] at h; simp at h
      | some bs =>
        rw [hml] at h
        simp only [Option.bind_eq_bind, Option.some_bind, pure, Option.some.injEq] at h
        rw [← h]
        simp [mapM_option_length f l bs hml]

theorem inversionSegments_short (levels : List Level) (h : levels.length < 2) :
    inversionSegments levels = [] := by
  unfold inversionSegments runCandidates
  rw [scanFrom_stop levels levels.length 0 (by omega)]
  rfl

/-- C6 (amended): a block with fewer than 2 *retained* rows yields no Profile
at all; a block that parses but has fewer than 2 data rows (after the
column-name and units rows) still yields a Profile, whose inversion table is
empty; in every case such a sounding is counted as a processing failure,
never as processed. -/
theorem c6_insufficient_data_rows (hour : ℕ) (rows : List (List Cell)) (s : Summary)
    (h : (rows.drop 2).length < 2) :
    (rows.length < 2 → processSounding hour rows = none) ∧
    (∀ p, processSounding hour rows = some p → p.2 = []) ∧
    (stepSounding s (hour, rows)).failed = s.failed + 1 ∧
    (stepSounding s (hour, rows)).processed = s.processed := by
  have h1 : rows.length < 2 → processSounding hour rows = none := by
    intro hlt
    unfold processSounding
    rw [if_pos hlt]
  have h2 : ∀ p, processSounding hour rows = some p → p.2 = [] := by
    intro p hp
    unfold processSounding at hp
    split at hp
    · simp at hp
    · cases hml : (rows.drop 2).mapM coerceRow with
      | none => rw [hml] at hp; simp at hp
      | some dataRows =>
        rw [hml] at hp
        simp only [Option.some.injEq] at hp
        have hlen : (dataRows.map rowToLevel).length < 2 := by
          rw [List.length_map, mapM_option_length coerceRow _ _ hml]
          exact h
        rw [← hp]
        show eventRows hour (dataRows.map rowToLevel) = []
        unfold eventRows
        rw [inversionSegments_short _ hlen]
        rfl
  have h3 : stepSounding s (hour, rows) = { s with failed := s.failed + 1 } := by
    show (match processSounding hour rows with
      | some (_, inv) =>
        if inv.isEmpty then { s with failed := s.failed + 1 }
        else { s with processed := s.processed + 1 }
      | none => { s with failed := s.failed + 1 }) = { s with failed := s.failed + 1 }
    cases hps : processSounding hour rows with
    | none => rfl
    | some p =>
      obtain ⟨df, inv⟩ := p
      have hinv : inv = [] := h2 (df, inv) hps
      subst hinv
      rfl
  exact ⟨h1, h2, by rw [h3], by rw [h3]⟩

/-- C6 as stated is false for blocks of 2 or 3 retained rows: a block with a
single data row has fewer than 2 data rows, yet `process_sounding` does yield
a Profile for it (the `len(results) < 2` early exit counts the two header
rows). -/
theorem c6_single_data_row_still_parses :
    (threeRowBlock.drop 2).length < 2 ∧ processSounding 0 threeRowBlock ≠ none := by
  decide

/-- Witness for C6: a one-row block yields no Profile and counts as failed. -/
theorem c6_insufficient_data_rows_witness :
    processSounding 0 [[Cell.num 1]] = none :=
  (c6_insufficient_data_rows 0 [[Cell.num 1]] ⟨0, 0⟩ (by decide)).1 (by decide)

/-! ## Claim C10 — every sounding increments exactly one counter -/

theorem stepSounding_total (s : Summary) (snd : Sounding) :
    (stepSounding s snd).processed + (stepSounding s snd).failed =
      s.processed + s.failed + 1 := by
  unfold stepSounding
  cases processSounding snd.1 snd.2 with
  | none => simp; omega
  | some p =>
    obtain ⟨df, inv⟩ := p
    by_cases hi : inv.isEmpty = true
    · simp [hi]
      omega
    · simp [hi]
      omega

theorem foldl_step_total (l : List Sounding) :
    ∀ s : Summary,
      (l.foldl stepSounding s).processed + (l.foldl stepSounding s).failed =
        s.processed + s.failed + l.length := by
  induction l with
  | nil => intro s; simp
  | cons x l ih =>
    intro s
    rw [List.foldl_cons, ih (stepSounding s x), stepSounding_total]
    simp
    omega

theorem foldl_months_total (ms : List (List Sounding)) :
    ∀ s : Summary,
      (ms.foldl (fun s month => month.foldl stepSounding s) s).processed +
        (ms.foldl (fun s month => month.foldl stepSounding s) s).failed =
          s.processed + s.failed + (ms.map List.length).sum := by
  induction ms with
  | nil => intro s; simp
  | cons m ms ih =>
    intro s
    rw [List.foldl_cons, ih (m.foldl stepSounding s), foldl_step_total]
    simp
    omega

/-- C10: each sounding handed to `process_sounding` increments exactly one of
the two summary counters — `processed` when the inversion table exists and is
non-empty, `failed` otherwise — so at the end of the run
`processed + failed` equals the total number of soundings extracted across
all months for which text was obtained. -/
theorem c10_summary_counts (months : List (List Sounding)) :
    (∀ (s : Summary) (snd : Sounding),
      ((stepSounding s snd).processed = s.processed + 1 ∧
        (stepSounding s snd).failed = s.failed) ∨
      ((stepSounding s snd).processed = s.processed ∧
        (stepSounding s snd).failed = s.failed + 1)) ∧
    (processData months).processed + (processData months).failed =
      (months.map List.length).sum := by
  constructor
  · intro s snd
    unfold stepSounding
    cases processSounding snd.1 snd.2 with
    | none => right; simp
    | some p =>
      obtain ⟨df, inv⟩ := p
      by_cases hi : inv.isEmpty = true
      · right; simp [hi]
      · left; simp [hi]
  · have := foldl_months_total months ⟨0, 0⟩
    simpa [processData] using this

/-! ## Claim C5 — header/table pairing of the Report Splitter -/

theorem everyOther_length {β : Type} :
    ∀ l : List β, (everyOther l).length = (l.length + 1) / 2
  | [] => by simp [everyOther]
  | [_] => by simp [everyOther]
  | x :: y :: rest => by
    simp only [everyOther, List.length_cons]
    rw [everyOther_length rest]
    omega

theorem everyOther_getD {β : Type} [Inhabited β] :
    ∀ (l : List β) (k : ℕ), (everyOther l).getD k default = l.getD (2 * k) default
  | [], k => by simp [everyOther]
  | [x], k => by
    cases k with
    | zero => rfl
    | succ k' =>
      show ([x] : List β).getD (k' + 1) default = ([x] : List β).getD (2 * (k' + 1)) default
      have h2 : 2 * (k' + 1) = 2 * k' + 1 + 1 := by omega
      rw [h2]
      simp [List.getD_cons_succ, List.getD_nil]
  | x :: y :: rest, k => by
    cases k with
    | zero => rfl
    | succ k' =>
      show (x :: everyOther rest).getD (k' + 1) default =
        (x :: y :: rest).getD (2 * (k' + 1)) default
      have h2 : 2 * (k' + 1) = 2 * k' + 1 + 1 := by omega
      rw [h2, List.getD_cons_succ, List.getD_cons_succ, List.getD_cons_succ]
      exact everyOther_getD rest k'

/-- C5: with `H > 0` headers and `P > 0` table blocks, the splitter pairs
headers with tables 1:1 when `P = H`; when `P = 2·H` it pairs header `k` with
table `2·k` (every other table starting at the first); for any other mismatch
it returns the empty list (the `StructureMismatch` condition). -/
theorem c5_pairing_rules {α β : Type} [Inhabited α] [Inhabited β]
    (h2s : List α) (pres : List β) (hH : h2s.length ≠ 0) (hP : pres.length ≠ 0) :
    (pres.length = h2s.length → extractPairs h2s pres = h2s.zip pres) ∧
    (pres.length = 2 * h2s.length →
      (extractPairs h2s pres).length = h2s.length ∧
      ∀ k, k < h2s.length →
        (extractPairs h2s pres).getD k default =
          (h2s.getD k default, pres.getD (2 * k) default)) ∧
    (pres.length ≠ h2s.length → pres.length ≠ 2 * h2s.length →
      extractPairs h2s pres = []) := by
  refine ⟨?_, ?_, ?_⟩
  · intro heq
    unfold extractPairs
    rw [if_neg (by omega), if_neg (by omega), if_neg (by omega)]
  · intro h2
    have hres : extractPairs h2s pres = h2s.zip (everyOther pres) := by
      unfold extractPairs
      rw [if_neg (by omega), if_pos h2]
    have hlen : (everyOther pres).length = h2s.length := by
      rw [everyOther_length, h2]; omega
    constructor
    · rw [hres, List.length_zip, hlen]; omega
    · intro k hk
      rw [hres]
      have hkz : k < (h2s.zip (everyOther pres)).length := by
        rw [List.length_zip, hlen]; omega
      rw [List.getD_eq_getElem _ _ hkz, List.getElem_zip,
        List.getD_eq_getElem _ _ hk,
        List.getD_eq_getElem _ _ (show 2 * k < pres.length by omega)]
      have hgo : (everyOther pres).getD k default = pres.getD (2 * k) default :=
        everyOther_getD pres k
      rw [List.getD_eq_getElem _ _ (by omega),
        List.getD_eq_getElem _ _ (show 2 * k < pres.length by omega)] at hgo
      rw [Prod.mk.injEq]
      exact ⟨rfl, hgo⟩
  · intro hne h2ne
    unfold extractPairs
    rw [if_neg (by omega), if_neg h2ne, if_pos (by omega)]

/-- Witness for C5: 2 headers and 4 tables pair header 1 with table 2
(0-indexed), reproducing the spec's every-other scenario. -/
theorem c5_pairing_rules_witness :
    (extractPairs twoHeads fourTables).getD 1 default = (2, 12) :=
  ((c5_pairing_rules twoHeads fourTables (by decide) (by decide)).2.1
    (by decide)).2 1 (by decide)

/-! ## Claim C3 — the synthetic 12-hour grid -/

theorem daysInMonth_pos (y m : ℕ) : 0 < daysInMonth y m := by
  unfold daysInMonth
  split_ifs <;> omega

theorem daysBefore_succ (y m : ℕ) (hm : 1 ≤ m) :
    daysBefore y (m + 1) = daysBefore y m + daysInMonth y m := by
  unfold daysBefore
  have h1 : m + 1 - 1 = (m - 1) + 1 := by omega
  rw [h1, List.range_succ, List.map_append, List.sum_append]
  have h2 : m - 1 + 1 = m := by omega
  simp [h2]

theorem daysBefore_mono (y m1 m2 : ℕ) (h : m1 ≤ m2) :
    daysBefore y m1 ≤ daysBefore y m2 := by
  induction m2, h using Nat.le_induction with
  | base => exact Nat.le_refl _
  | succ m hm ih =>
    rcases Nat.eq_zero_or_pos m with h0 | h1
    · have hm1 : m1 = 0 := by omega
      subst hm1; subst h0
      simp [daysBefore]
    · calc daysBefore y m1 ≤ daysBefore y m := ih
        _ ≤ daysBefore y (m + 1) := by rw [daysBefore_succ y m h1]; omega

/-- C3 (amended): the synthetic grid runs at 12-hour cadence from 00:00 of
day 1 of the first month up to **00:00 (midnight)** of the true, leap-year
aware last calendar day of the last month — the last day's 12:00 slot is not
included, because `pd.date_range`'s endpoint is that day's midnight. The grid
holds every 12-hour stamp in that closed range and nothing else, so a run
over exactly January 2021 yields 61 rows (2·30 + 1), not 62. -/
theorem c3_grid_range_and_length (y m1 m2 : ℕ) (h : m1 ≤ m2) :
    (∀ t, t ∈ gridStamps y m1 m2 ↔
      2 * daysBefore y m1 ≤ t ∧
        t ≤ 2 * (daysBefore y m2 + daysInMonth y m2 - 1)) ∧
    (gridStamps y m1 m2).length =
      2 * (daysBefore y m2 + daysInMonth y m2 - 1) - 2 * daysBefore y m1 + 1 := by
  have hmono := daysBefore_mono y m1 m2 h
  have hpos := daysInMonth_pos y m2
  have hle : daysBefore y m1 ≤ daysBefore y m2 + daysInMonth y m2 - 1 := by omega
  constructor
  · intro t
    simp only [gridStamps, List.mem_map, List.mem_range]
    constructor
    · rintro ⟨k, hk, rfl⟩
      omega
    · rintro ⟨h1, h2⟩
      exact ⟨t - 2 * daysBefore y m1, by omega, by omega⟩
  · simp only [gridStamps, List.length_map, List.length_range]
    omega

/-- C3's row count is false on the code: aggregating January 2021 yields a
61-row grid, not 62 — the last day's 12:00 slot is absent. -/
theorem c3_january_2021_has_61_rows :
    (gridStamps 2021 1 1).length = 61 ∧ (gridStamps 2021 1 1).length ≠ 62 := by
  decide

/-- Witness for C3 at January 2021: the closed-form length formula holds. -/
theorem c3_grid_range_and_length_witness :
    (gridStamps 2021 1 1).length =
      2 * (daysBefore 2021 1 + daysInMonth 2021 1 - 1) - 2 * daysBefore 2021 1 + 1 :=
  (c3_grid_range_and_length 2021 1 1 (by decide)).2

/-! ## Claim C7 — subset membership is decided by the tag columns alone -/

/-- C7: a row of the combined full table whose Ground/Night/Day tags are all
null belongs to none of the eight tagged subsets; and for any row of the full
table, membership in each subset is decided solely by its tag values (a NaN
tag fails every `== 0` / `== 1` test). -/
theorem c7_subset_membership_by_tags (rows : List GridRow) (r : GridRow)
    (hr : r ∈ rows) :
    ((r.ground = none ∧ r.night = none ∧ r.day = none) →
      r ∉ dfGround rows ∧ r ∉ dfNotGround rows ∧ r ∉ dfDay rows ∧
      r ∉ dfNight rows ∧ r ∉ dfGroundNight rows ∧ r ∉ dfGroundDay rows ∧
      r ∉ dfNotGroundNight rows ∧ r ∉ dfNotGroundDay rows) ∧
    ((r ∈ dfGround rows ↔ fEq r.ground 1 = true) ∧
      (r ∈ dfNotGround rows ↔ fEq r.ground 0 = true) ∧
      (r ∈ dfDay rows ↔ fEq r.day 1 = true) ∧
      (r ∈ dfNight rows ↔ fEq r.night 1 = true) ∧
      (r ∈ dfGroundNight rows ↔ (fEq r.ground 1 && fEq r.night 1) = true) ∧
      (r ∈ dfGroundDay rows ↔ (fEq r.ground 1 && fEq r.day 1) = true) ∧
      (r ∈ dfNotGroundNight rows ↔ (fEq r.ground 0 && fEq r.night 1) = true) ∧
      (r ∈ dfNotGroundDay rows ↔ (fEq r.ground 0 && fEq r.day 1) = true)) := by
  have hf : ∀ p : GridRow → Bool, r ∈ rows.filter p ↔ p r = true := by
    intro p
    rw [List.mem_filter]
    exact ⟨fun h => h.2, fun h => ⟨hr, h⟩⟩
  constructor
  · rintro ⟨hg, hn, hd⟩
    refine ⟨?_, ?_, ?_, ?_, ?_, ?_, ?_, ?_⟩ <;>
      · intro hmem
        have := (hf _).mp hmem
        simp [fEq, hg, hn, hd] at this
  · exact ⟨hf _, hf _, hf _, hf _, hf _, hf _, hf _, hf _⟩

/-- Witness for C7: the all-null row of the sample table is absent from the
ground subset. -/
theorem c7_subset_membership_by_tags_witness :
    nullTagRow ∉ dfGround sampleGrid :=
  ((c7_subset_membership_by_tags sampleGrid nullTagRow (by decide)).1
    (by exact ⟨rfl, rfl, rfl⟩)).1

/-! ## Claim C8 — wind-speed conversion and round trip -/

/-- C8: a successfully coerced wind speed `v` (knots) is stored as
`round(v · 0.51444444444444, 2)` m/s immediately after coercion, and dividing
the stored value by the same factor recovers `v` to within 0.01. -/
theorem c8_wind_conversion_roundtrip (v : ℚ) (row : List (Option ℚ))
    (hrow : row.getD 7 none = some v) :
    (rowToLevel row).sknt = some (round2 (v * knotsToMs)) ∧
    |round2 (v * knotsToMs) / knotsToMs - v| ≤ 1 / 100 := by
  have hk : knotsToMs = 51444444444444 / 100000000000000 := by norm_num [knotsToMs]
  have hkpos : (0 : ℚ) < knotsToMs := by rw [hk]; norm_num
  have hk2 : (1 : ℚ) / 2 ≤ knotsToMs := by rw [hk]; norm_num
  constructor
  · show (row.getD 7 none).map convertWind = some (round2 (v * knotsToMs))
    rw [hrow]
    rfl
  · have hround : ∀ x : ℚ, |round2 x - x| ≤ 1 / 200 := by
      intro x
      unfold round2
      rw [abs_sub_comm]
      have h1 : x - (round (x * 100) : ℚ) / 100 = (x * 100 - round (x * 100)) / 100 := by
        ring
      rw [h1, abs_div, abs_of_pos (show (0 : ℚ) < 100 by norm_num)]
      have h2 := abs_sub_round (x * 100)
      linarith
    set x := v * knotsToMs with hx
    have h3 : round2 x / knotsToMs - v = (round2 x - x) / knotsToMs := by
      field_simp
      rw [hx]
      ring
    have h4 : |round2 x / knotsToMs - v| = |round2 x - x| / knotsToMs := by
      rw [h3, abs_div, abs_of_pos hkpos]
    rw [h4]
    have h5 := hround x
    have h6 : (1 : ℚ) / 200 / knotsToMs ≤ 1 / 100 := by
      rw [div_le_iff₀ hkpos]
      linarith
    calc |round2 x - x| / knotsToMs ≤ 1 / 200 / knotsToMs := by gcongr
      _ ≤ 1 / 100 := h6

/-- Witness for C8 at 10 knots: the stored value is `round2 (10 · factor)`
and the round trip recovers 10 within 0.01. -/
theorem c8_wind_conversion_roundtrip_witness :
    (rowToLevel windRow).sknt = some (round2 (10 * knotsToMs)) ∧
    |round2 (10 * knotsToMs) / knotsToMs - 10| ≤ 1 / 100 :=
  c8_wind_conversion_roundtrip 10 windRow (by decide)

end WeatherTool
